import Mathlib

/-!
Verification of the project-board synchronization engine of
kubernetes-sigs/signalhound (`internal/github/github.go`).

The Go code is shallowly embedded: pure helpers (`extractVersion`,
`compareVersions`, the field/option resolvers) become Lean functions on
`String`/`List`; the network mutations and paginated queries of
`CreateDraftIssue` and `GetProjectIssues` are modelled by explicit
oracles (`DraftEffects`, a page server function) together with logs of
the requests the code would issue, so that claims about which requests
are made, and in which order, can be stated and proved.
-/

namespace Signalhound

/-! ## String helpers mirroring `strings.Contains` / `strings.ToLower` -/

/-- True when the first list is a prefix of the second. -/
def charsPrefixOf : List Char → List Char → Bool
  | [], _ => true
  | _ :: _, [] => false
  | a :: as, b :: bs => a == b && charsPrefixOf as bs

/-- True when the needle list occurs contiguously inside the hay list. -/
def charsContains (needle : List Char) : List Char → Bool
  | [] => charsPrefixOf needle []
  | c :: t => charsPrefixOf needle (c :: t) || charsContains needle t

/-- Embedding of Go `strings.Contains s sub`. -/
def strContains (s sub : String) : Bool :=
  charsContains sub.data s.data

/-- Embedding of Go `strings.ToLower` (ASCII case folding, which is all the
engine's match keywords use). -/
def strToLower (s : String) : String :=
  String.mk (s.data.map Char.toLower)

/-! ## Version comparator (`extractVersion`, `compareVersions`) -/

/-- Maximal leading digit run and the remainder, i.e. the greedy `\d+` step of
the regex `v?(\d+)\.(\d+)`. -/
def spanDigits (cs : List Char) : List Char × List Char :=
  (cs.takeWhile Char.isDigit, cs.dropWhile Char.isDigit)

/-- Try to match `(\d+)\.(\d+)` at the head of `cs`, returning the two digit
runs.  Greedy digit runs followed by a literal dot, exactly as the Go regex
matches at a fixed start position. -/
def matchNumDotNum (cs : List Char) : Option (List Char × List Char) :=
  match spanDigits cs with
  | ([], _) => none
  | (d1, rest) =>
    match rest with
    | '.' :: rest2 =>
      match spanDigits rest2 with
      | ([], _) => none
      | (d2, _) => some (d1, d2)
    | _ => none

/-- Leftmost match of `v?(\d+)\.(\d+)`: scan start positions left to right,
at each position preferring to consume an optional leading `v`. -/
def findVersionMatch : List Char → Option (List Char × List Char)
  | [] => none
  | c :: cs =>
    if c = 'v' then
      match matchNumDotNum cs with
      | some r => some r
      | none =>
        match matchNumDotNum (c :: cs) with
        | some r => some r
        | none => findVersionMatch cs
    else
      match matchNumDotNum (c :: cs) with
      | some r => some r
      | none => findVersionMatch cs

/-- Embedding of `extractVersion`: first `v?(\d+)\.(\d+)` match rendered as
`"<major>.<minor>"`, or `""` when there is no match. -/
def extractVersion (s : String) : String :=
  match findVersionMatch s.data with
  | some (d1, d2) => String.mk (d1 ++ '.' :: d2)
  | none => ""

/-- Split a character list at every `'.'`, like Go `strings.Split v "."`
(always at least one piece; empty pieces preserved). -/
def splitCharsOnDot : List Char → List (List Char)
  | [] => [[]]
  | c :: cs =>
    if c = '.' then [] :: splitCharsOnDot cs
    else
      match splitCharsOnDot cs with
      | [] => [[c]]
      | p :: ps => (c :: p) :: ps

/-- Numeric value of a digit run, most significant digit first. -/
def digitsToNat (ds : List Char) : Nat :=
  ds.foldl (fun a c => a * 10 + (c.toNat - 48)) 0

/-- Largest value of Go's 64-bit `int`. -/
def int64Max : Int := 9223372036854775807

/-- Smallest value of Go's 64-bit `int`. -/
def int64Min : Int := -9223372036854775808

/-- Embedding of `strconv.Atoi` with its error discarded, as
`compareVersions` uses it: optional sign then decimal digits; any syntax
error yields 0 (the zero value the Go code keeps), while a syntactically
valid number out of the 64-bit range is clamped to the nearer bound (the
value `strconv.ParseInt` returns alongside `ErrRange`). -/
def goAtoiChars (cs : List Char) : Int :=
  let p : Bool × List Char :=
    match cs with
    | '-' :: rest => (true, rest)
    | '+' :: rest => (false, rest)
    | _ => (false, cs)
  if p.2.isEmpty then 0
  else if p.2.all Char.isDigit then
    let n : Int := Int.ofNat (digitsToNat p.2)
    let v : Int := if p.1 then -n else n
    if v > int64Max then int64Max
    else if v < int64Min then int64Min
    else v
  else 0

/-- The numeric segment values of a version string, in order. -/
def versionSegs (v : String) : List Int :=
  (splitCharsOnDot v.data).map goAtoiChars

/-- Tail of the `compareVersions` loop once the left version has run out of
segments: each remaining right segment is compared against 0. -/
def cmpZeroList : List Int → Int
  | [] => 0
  | y :: ys => if 0 > y then 1 else if 0 < y then -1 else cmpZeroList ys

/-- Tail of the `compareVersions` loop once the right version has run out of
segments: each remaining left segment is compared against 0. -/
def cmpListZero : List Int → Int
  | [] => 0
  | x :: xs => if x > 0 then 1 else if x < 0 then -1 else cmpListZero xs

/-- The loop of `compareVersions`: compare segment values left to right, a
missing segment counting as 0; first difference decides. -/
def cmpInts : List Int → List Int → Int
  | [], ys => cmpZeroList ys
  | x :: xs, [] => if x > 0 then 1 else if x < 0 then -1 else cmpListZero xs
  | x :: xs, y :: ys => if x > y then 1 else if x < y then -1 else cmpInts xs ys

/-- Embedding of `compareVersions`. -/
def compareVersions (v1 v2 : String) : Int :=
  cmpInts (versionSegs v1) (versionSegs v2)

/-! ## Schema data model -/

/-- One option of a single-select project field (Go stores `options` as a map
from option name to option ID; the embedding keeps the discovery order as a
list, standing in for one fixed iteration order of the map). -/
structure FieldOption where
  name : String
  id : String
  deriving DecidableEq

/-- Embedding of `ProjectFieldInfo`. -/
structure ProjectFieldInfo where
  id : String
  name : String
  options : List FieldOption
  deriving DecidableEq

/-! ## Field resolution (`findK8sReleaseFieldAndLatestVersion`,
`findStatusFieldAndOption`) -/

/-- The option scan of `findK8sReleaseFieldAndLatestVersion`, carrying the
running `(latestVersion, latestVersionID)` pair. -/
def findLatestAux : List FieldOption → String → String → String × String
  | [], lv, lid => (lv, lid)
  | o :: os, lv, lid =>
    let version := extractVersion o.name
    if version ≠ "" then
      if lv = "" ∨ compareVersions version lv > 0 then
        findLatestAux os version o.id
      else
        findLatestAux os lv lid
    else
      findLatestAux os lv lid

/-!
`githubv4.ID` is the empty interface type, so a resolution variable that is
never assigned holds the nil interface, which Go's `==`/`!=` comparisons
against `""` treat as DIFFERENT from the boxed empty string.  Resolved IDs
are therefore modelled as `Option String`: `none` is the nil interface and
`some s` an interface boxing the string `s`.  Go `x == ""` is `x = some ""`,
Go `x != ""` is `x ≠ some ""`, and `fmt.Sprintf` with verb `v` prints `none`
as the string below.
-/

/-- What `fmt.Sprintf` with verb `v` prints for a (possibly nil) ID. -/
def goIDPrint : Option String → String
  | some s => s
  | none => "<nil>"

/-- Embedding of `findK8sReleaseFieldAndLatestVersion`: first field whose
lowered name contains `"k8s release"`; within it, the option scan above.
The named returns start as nil interfaces; `fieldID` is assigned on a field
match, and `optionID` only when the scan's `latestVersionID` differs from
the boxed empty string — otherwise it stays nil (`none`). -/
def findK8sReleaseFieldAndLatestVersion (fields : List ProjectFieldInfo) :
    Option String × Option String :=
  match fields.find? (fun f => strContains (strToLower f.name) "k8s release") with
  | some f =>
    (some f.id,
      if (findLatestAux f.options "" "").2 ≠ "" then some (findLatestAux f.options "" "").2
      else none)
  | none => (none, none)

/-- Embedding of `findStatusFieldAndOption`: first field whose lowered name
contains `"status"`; within it, the first option accepted by the matcher.
Unassigned named returns stay nil (`none`). -/
def findStatusFieldAndOption (fields : List ProjectFieldInfo)
    (optionMatcher : String → Bool) : Option String × Option String :=
  match fields.find? (fun f => strContains (strToLower f.name) "status") with
  | some f =>
    (some f.id,
      match f.options.find? (fun o => optionMatcher o.name) with
      | some o => some o.id
      | none => none)
  | none => (none, none)

/-- The status matcher `CreateDraftIssue` passes: label contains `"drafting"`
or `"draft"` (case-insensitive). -/
def draftStatusMatcher (optName : String) : Bool :=
  strContains (strToLower optName) "drafting" || strContains (strToLower optName) "draft"

/-- The status matcher `GetProjectIssues` passes: label contains `"failing"`
or `"flaky"` (case-insensitive). -/
def retrievalStatusMatcher (optName : String) : Bool :=
  strContains (strToLower optName) "failing" || strContains (strToLower optName) "flaky"

/-- The view option matcher inlined in `CreateDraftIssue`: label contains
`"issue-tracking"` or `"issue tracking"` (case-insensitive). -/
def viewOptionMatcher (optName : String) : Bool :=
  strContains (strToLower optName) "issue-tracking" ||
    strContains (strToLower optName) "issue tracking"

/-! ## The inline view/board resolution loop of `CreateDraftIssue` -/

/-- The four mutable locals of `CreateDraftIssue`'s field loop that concern
the view and board slots; they are declared interface variables, so each
starts as the nil interface (`none`). -/
structure ViewBoardState where
  viewFieldID : Option String
  viewValueID : Option String
  boardFieldID : Option String
  boardValueID : Option String
  deriving DecidableEq

/-- Embedding of `CreateDraftIssue`'s `for _, field := range fields` loop:
each field whose lowered name contains `"view"` overwrites the view slot
(its first matching option, if any, overwrites the view value), and each
field whose lowered name contains `"board"` overwrites the board slot (an
option matches when the board selector string contains its lowered label). -/
def viewBoardLoop (board : String) : List ProjectFieldInfo → ViewBoardState → ViewBoardState
  | [], st => st
  | f :: fs, st =>
    let st1 :=
      if strContains (strToLower f.name) "view" then
        { st with
          viewFieldID := some f.id
          viewValueID :=
            match f.options.find? (fun o => viewOptionMatcher o.name) with
            | some o => some o.id
            | none => st.viewValueID }
      else st
    let st2 :=
      if strContains (strToLower f.name) "board" then
        { st1 with
          boardFieldID := some f.id
          boardValueID :=
            match f.options.find? (fun o => strContains board (strToLower o.name)) with
            | some o => some o.id
            | none => st1.boardValueID }
      else st1
    viewBoardLoop board fs st2

/-- The `(viewFieldID, viewValueID)` pair `CreateDraftIssue` ends up with. -/
def resolvedViewPair (fields : List ProjectFieldInfo) (board : String) :
    Option String × Option String :=
  let st := viewBoardLoop board fields ⟨none, none, none, none⟩
  (st.viewFieldID, st.viewValueID)

/-- The `(boardFieldID, boardValueID)` pair `CreateDraftIssue` ends up with. -/
def resolvedBoardPair (fields : List ProjectFieldInfo) (board : String) :
    Option String × Option String :=
  let st := viewBoardLoop board fields ⟨none, none, none, none⟩
  (st.boardFieldID, st.boardValueID)

/-! ## Draft item writer (`CreateDraftIssue`) -/

/-- One entry of the `fieldUpdates` slice in `CreateDraftIssue`; the two IDs
are interface values that may be nil. -/
structure FieldUpdate where
  fieldID : Option String
  optionID : Option String
  fieldName : String
  deriving DecidableEq

/-- The `fieldUpdates` slice `CreateDraftIssue` builds, in source order. -/
def resolveDraftFields (fields : List ProjectFieldInfo) (board : String) : List FieldUpdate :=
  let kp := findK8sReleaseFieldAndLatestVersion fields
  let sp := findStatusFieldAndOption fields draftStatusMatcher
  let vp := resolvedViewPair fields board
  let bp := resolvedBoardPair fields board
  [⟨kp.1, kp.2, "K8s Release"⟩, ⟨vp.1, vp.2, "View"⟩,
   ⟨sp.1, sp.2, "Status"⟩, ⟨bp.1, bp.2, "Testgrid Board"⟩]

/-- The guard of the update loop: Go compares each interface ID against the
boxed empty string, and a nil interface is NOT equal to it — so an
unresolved (nil) pair passes this guard and its update mutation is still
attempted; only an ID that is dynamically the empty string is skipped. -/
def updateEligible (u : FieldUpdate) : Bool :=
  u.fieldID != some "" && u.optionID != some ""

/-- Outcomes of the remote mutations: the result of the draft-creation
mutation, and for the k-th attempted field-value update mutation either
success (`none`) or a failure message (`some e`). -/
structure DraftEffects where
  draftResult : Except String String
  updateResult : Nat → Option String

/-- Observable outcome of `CreateDraftIssue`: its return value, the
field-value update mutations it attempted (in order), and the warnings it
printed. -/
structure DraftOutcome where
  result : Except String Unit
  attemptedUpdates : List FieldUpdate
  warnings : List String

/-- Embedding of `CreateDraftIssue`'s update loop: for each entry with both
identifiers non-empty, issue one update mutation; a failure only appends a
warning and the loop continues. -/
def runUpdates (eff : DraftEffects) :
    List FieldUpdate → Nat → List FieldUpdate → List String → List FieldUpdate × List String
  | [], _, att, warns => (att, warns)
  | u :: us, idx, att, warns =>
    if updateEligible u then
      match eff.updateResult idx with
      | none => runUpdates eff us (idx + 1) (att ++ [u]) warns
      | some e =>
        runUpdates eff us (idx + 1) (att ++ [u])
          (warns ++ ["Warning: failed to update " ++ u.fieldName ++ " field: " ++ e])
    else
      runUpdates eff us idx att warns

/-- Embedding of `CreateDraftIssue`: resolve the four field/option pairs,
create the draft item (aborting on failure), then run the best-effort update
loop; the call returns success whenever the draft mutation succeeded. -/
def createDraftIssue (fields : List ProjectFieldInfo) (title body board : String)
    (eff : DraftEffects) : DraftOutcome :=
  let _ := title
  let _ := body
  let updates := resolveDraftFields fields board
  match eff.draftResult with
  | Except.error e => ⟨Except.error ("failed to create draft issue: " ++ e), [], []⟩
  | Except.ok _ =>
    let r := runUpdates eff updates 0 [] []
    ⟨Except.ok (), r.1, r.2⟩

/-! ## Filtered item retriever (`GetProjectIssues`) -/

/-- Embedding of `Issue`. -/
structure Issue where
  number : Int
  title : String
  body : String
  state : String
  htmlURL : String
  deriving DecidableEq

/-- The issue payload of an item's content node. -/
structure IssueContent where
  number : Int
  title : String
  body : String
  state : String
  url : String
  deriving DecidableEq

/-- One field value node of an item, as the paginated query returns it. -/
structure FieldValueNode where
  typename : String
  fieldID : String
  optionName : String
  deriving DecidableEq

/-- One item node of the paginated items query. -/
structure ItemNode where
  contentTypename : String
  content : IssueContent
  fieldValues : List FieldValueNode
  deriving DecidableEq

/-- One page of the paginated items query. -/
structure PageResponse where
  items : List ItemNode
  hasNextPage : Bool
  endCursor : String
  deriving DecidableEq

/-- Conversion of a matching item node into the returned `Issue` record. -/
def toIssue (n : ItemNode) : Issue :=
  ⟨n.content.number, n.content.title, n.content.body, n.content.state, n.content.url⟩

/-- The per-item scan over `fieldValues` setting `matchesVersion` and
`matchesStatus`, exactly as the Go loop updates its two booleans. -/
def scanFieldValues (kfid sfid latest : String) :
    List FieldValueNode → Bool → Bool → Bool × Bool
  | [], mv, ms => (mv, ms)
  | v :: vs, mv, ms =>
    if v.typename == "ProjectV2ItemFieldSingleSelectValue" then
      let mv2 := if v.fieldID == kfid && extractVersion v.optionName == latest then true else mv
      let ms2 :=
        if v.fieldID == sfid &&
            (strContains (strToLower v.optionName) "failing" ||
              strContains (strToLower v.optionName) "flaky") then true
        else ms
      scanFieldValues kfid sfid latest vs mv2 ms2
    else
      scanFieldValues kfid sfid latest vs mv ms

/-- The per-page filter of `GetProjectIssues`: skip non-`"Issue"` content,
include an item only when both booleans ended up true. -/
def filterPageItems (kfid sfid latest : String) : List ItemNode → List Issue
  | [] => []
  | n :: ns =>
    if n.contentTypename == "Issue" then
      let mm := scanFieldValues kfid sfid latest n.fieldValues false false
      if mm.1 && mm.2 then toIssue n :: filterPageItems kfid sfid latest ns
      else filterPageItems kfid sfid latest ns
    else filterPageItems kfid sfid latest ns

/-- The `latestVersionStr` computation of `GetProjectIssues`: in the first
field whose lowered name contains `"k8s release"` and whose ID equals the
resolved release field ID (interface equality: a schema ID never equals a
nil resolution), the extracted version of the option carrying the resolved
option ID. -/
def computeLatestVersionStr (fields : List ProjectFieldInfo)
    (kfid kvid : Option String) : String :=
  match fields.find? (fun f =>
      strContains (strToLower f.name) "k8s release" && some f.id == kfid) with
  | some f =>
    match f.options.find? (fun o => some o.id == kvid) with
    | some o => extractVersion o.name
    | none => ""
  | none => ""

/-- Embedding of the cursor-pagination loop of `GetProjectIssues`.  The
remote service is an oracle from the `after` cursor to a page or an error;
the returned log records the cursor of every query issued, in order.  `fuel`
bounds the number of iterations the model unrolls (`none` = the Go loop
would still be running after `fuel` pages). -/
def getProjectIssuesLoop (server : Option String → Except String PageResponse)
    (kfid sfid latest : String) :
    Nat → Option String → List Issue → List (Option String) →
    Option (Except String (List Issue) × List (Option String))
  | 0, _, _, _ => none
  | fuel + 1, cursor, acc, log =>
    match server cursor with
    | Except.error e =>
      some (Except.error ("failed to query project issues: " ++ e), log ++ [cursor])
    | Except.ok page =>
      let acc2 := acc ++ filterPageItems kfid sfid latest page.items
      if page.hasNextPage then
        getProjectIssuesLoop server kfid sfid latest fuel (some page.endCursor) acc2 (log ++ [cursor])
      else
        some (Except.ok acc2, log ++ [cursor])

/-- Embedding of `GetProjectIssues`: resolve the release and status slots,
then compare each resolved option ID against the BOXED empty string — a nil
(unresolved) ID is not equal to it, so the missing-field error branches fire
only when an option ID is dynamically the empty string, and a failed
resolution falls through to pagination with nil IDs (printed below as the
filter compares printed forms). -/
def getProjectIssues (fields : List ProjectFieldInfo)
    (server : Option String → Except String PageResponse) (fuel : Nat) :
    Option (Except String (List Issue) × List (Option String)) :=
  let kp := findK8sReleaseFieldAndLatestVersion fields
  let sp := findStatusFieldAndOption fields retrievalStatusMatcher
  if kp.2 = some "" then
    some (Except.error "latest version option not found in k8s_release field", [])
  else if sp.2 = some "" then
    some (Except.error "FAILING status option not found in status field", [])
  else
    getProjectIssuesLoop server (goIDPrint kp.1) (goIDPrint sp.1)
      (computeLatestVersionStr fields kp.1 kp.2) fuel none [] []

/-- The filter `GetProjectIssues` applies to every page, with its three
resolved parameters. -/
def retrievalFilter (fields : List ProjectFieldInfo) : List ItemNode → List Issue :=
  let kp := findK8sReleaseFieldAndLatestVersion fields
  let sp := findStatusFieldAndOption fields retrievalStatusMatcher
  filterPageItems (goIDPrint kp.1) (goIDPrint sp.1) (computeLatestVersionStr fields kp.1 kp.2)

/-! ## Declarative forms used to state the claims -/

/-- The inclusion condition of the retrieval filter, written as the two
independent field-value scans the spec describes. -/
def itemIncludedB (kfid sfid latest : String) (n : ItemNode) : Bool :=
  n.contentTypename == "Issue" &&
  n.fieldValues.any (fun v =>
    v.typename == "ProjectV2ItemFieldSingleSelectValue" &&
      (v.fieldID == kfid && extractVersion v.optionName == latest)) &&
  n.fieldValues.any (fun v =>
    v.typename == "ProjectV2ItemFieldSingleSelectValue" &&
      (v.fieldID == sfid &&
        (strContains (strToLower v.optionName) "failing" ||
          strContains (strToLower v.optionName) "flaky")))

/-- The warning the update loop emits for the k-th attempted update, if that
update fails. -/
def updateWarning (eff : DraftEffects) (p : Nat × FieldUpdate) : Option String :=
  (eff.updateResult p.1).map
    (fun e => "Warning: failed to update " ++ p.2.fieldName ++ " field: " ++ e)

/-- Modelled from the spec: the pre-hash segment of a board-grouping
selector `"<boardName>#<tabName>"` (the part the spec says is the only part
ever read for board-option matching). -/
def preHashSegment (s : String) : String :=
  String.mk (s.data.takeWhile (fun c => c ≠ '#'))

/-- Modelled from the spec: claim C10's reading of the segment parser, under
which every segment that `strconv.Atoi` fails to parse — whether
syntactically or because the value is out of the 64-bit range — counts as
0. -/
def specAtoiChars (cs : List Char) : Int :=
  let p : Bool × List Char :=
    match cs with
    | '-' :: rest => (true, rest)
    | '+' :: rest => (false, rest)
    | _ => (false, cs)
  if p.2.isEmpty then 0
  else if p.2.all Char.isDigit then
    let n : Int := Int.ofNat (digitsToNat p.2)
    let v : Int := if p.1 then -n else n
    if v > int64Max then 0
    else if v < int64Min then 0
    else v
  else 0

/-- Modelled from the spec: the segment values of a version string under the
claim's treated-as-0 reading. -/
def specVersionSegs (v : String) : List Int :=
  (splitCharsOnDot v.data).map specAtoiChars

/-! ## Concrete fixtures for witnesses and counterexamples -/

/-- A release field with two versioned options. -/
def exampleK8sFields : List ProjectFieldInfo :=
  [⟨"F", "K8s Release", [⟨"v1.30", "A"⟩, ⟨"v1.31", "B"⟩]⟩]

/-- A status field carrying both a drafting and a failing option. -/
def exampleStatusField : ProjectFieldInfo :=
  ⟨"S", "Status", [⟨"Drafting", "X"⟩, ⟨"Failing", "Y"⟩]⟩

/-- A second field whose name also contains `"status"`, carrying a
failing-matching option, used to show later status fields are ignored. -/
def exampleStatusField2 : ProjectFieldInfo :=
  ⟨"S2", "Other Status", [⟨"Failing hard", "Z"⟩]⟩

/-- A schema with one board field whose only option is `"gce"`. -/
def exampleBoardFields : List ProjectFieldInfo :=
  [⟨"F", "Board", [⟨"gce", "G"⟩]⟩]

/-- First of two fields whose names contain `"view"`. -/
def exampleViewA : ProjectFieldInfo := ⟨"FA", "View A", [⟨"issue-tracking", "V1"⟩]⟩

/-- Second of two fields whose names contain `"view"`. -/
def exampleViewB : ProjectFieldInfo := ⟨"FB", "View B", [⟨"issue-tracking", "V2"⟩]⟩

/-- A full example schema: release, view, status and board fields. -/
def exampleSchema : List ProjectFieldInfo :=
  [⟨"KF", "K8s Release", [⟨"v1.31", "KA"⟩]⟩,
   ⟨"VF", "View", [⟨"Issue-Tracking", "VA"⟩]⟩,
   ⟨"SF", "Status", [⟨"Drafting", "SA"⟩, ⟨"Failing", "SB"⟩]⟩,
   ⟨"BF", "Testgrid Board", [⟨"gce", "BA"⟩]⟩]

/-- Effects where the draft mutation succeeds and every update succeeds. -/
def exampleEffOk : DraftEffects := ⟨Except.ok "item", fun _ => none⟩

/-- Effects where the draft mutation succeeds and every update fails. -/
def exampleEffAllFail : DraftEffects := ⟨Except.ok "item", fun _ => some "boom"⟩

/-- An issue item matching both retrieval criteria. -/
def exampleItem1 : ItemNode :=
  ⟨"Issue", ⟨7, "t1", "b1", "OPEN", "u1"⟩,
   [⟨"ProjectV2ItemFieldSingleSelectValue", "KF", "v1.31"⟩,
    ⟨"ProjectV2ItemFieldSingleSelectValue", "SF", "FAILING"⟩]⟩

/-- A pull-request item whose field values match both criteria. -/
def exampleItem2 : ItemNode :=
  ⟨"PullRequest", ⟨8, "t2", "b2", "OPEN", "u2"⟩,
   [⟨"ProjectV2ItemFieldSingleSelectValue", "KF", "v1.31"⟩,
    ⟨"ProjectV2ItemFieldSingleSelectValue", "SF", "FAILING"⟩]⟩

/-- An issue item matching both criteria with the field values in the other
order. -/
def exampleItem3 : ItemNode :=
  ⟨"Issue", ⟨9, "t3", "b3", "OPEN", "u3"⟩,
   [⟨"ProjectV2ItemFieldSingleSelectValue", "SF", "Flaky"⟩,
    ⟨"ProjectV2ItemFieldSingleSelectValue", "KF", "v1.31 stable"⟩]⟩

/-- First page of the example server: two items, more pages follow. -/
def examplePage1 : PageResponse := ⟨[exampleItem1, exampleItem2], true, "cur1"⟩

/-- Second page of the example server: one item, last page. -/
def examplePage2 : PageResponse := ⟨[exampleItem3], false, "cur2"⟩

/-- A two-page server. -/
def exampleServer : Option String → Except String PageResponse := fun c =>
  match c with
  | none => Except.ok examplePage1
  | some _ => Except.ok examplePage2

/-- A server whose second page query fails. -/
def exampleServerErr : Option String → Except String PageResponse := fun c =>
  match c with
  | none => Except.ok examplePage1
  | some _ => Except.error "boom"

/-! # Helper lemmas -/

theorem runUpdates_spec (eff : DraftEffects) :
    ∀ (us : List FieldUpdate) (idx : Nat) (att : List FieldUpdate) (warns : List String),
    runUpdates eff us idx att warns =
      (att ++ us.filter updateEligible,
       warns ++ ((us.filter updateEligible).enumFrom idx).filterMap (updateWarning eff)) := by
  intro us
  induction us with
  | nil => intro idx att warns; simp [runUpdates]
  | cons u us ih =>
    intro idx att warns
    by_cases hu : updateEligible u = true
    · cases hr : eff.updateResult idx with
      | none =>
        simp only [runUpdates, hu, if_true, hr, ih, List.filter_cons, List.enumFrom,
          List.filterMap_cons, updateWarning, Option.map_none']
        simp [List.append_assoc]
      | some e =>
        simp only [runUpdates, hu, if_true, hr, ih, List.filter_cons, List.enumFrom,
          List.filterMap_cons, updateWarning, Option.map_some']
        simp [List.append_assoc]
    · simp [runUpdates, hu, ih, List.filter_cons]

theorem viewBoardLoop_append (board : String) :
    ∀ (l1 l2 : List ProjectFieldInfo) (st : ViewBoardState),
    viewBoardLoop board (l1 ++ l2) st = viewBoardLoop board l2 (viewBoardLoop board l1 st) := by
  intro l1
  induction l1 with
  | nil => intro l2 st; rfl
  | cons f fs ih => intro l2 st; simp only [List.cons_append, viewBoardLoop]; exact ih l2 _

/-! # Claims -/

/-- C1 (code bug): on a schema where neither required option resolves, both
resolution results are the nil interface, Go's comparison of a nil ID with
the boxed empty string is false, so the missing-required-field error
branches — whose own messages document the fail-fast intent — do not fire:
the call paginates anyway (one query issued, logged cursor `none`, with a
non-empty page of items that match nothing) and returns success with an
empty item list instead of the error before pagination that the claim and
the spec describe. -/
theorem claimC1_code_behavior :
    (findK8sReleaseFieldAndLatestVersion ([] : List ProjectFieldInfo)).2 = none ∧
    (findStatusFieldAndOption ([] : List ProjectFieldInfo) retrievalStatusMatcher).2 = none ∧
    getProjectIssues [] (fun _ => Except.ok examplePage2) 1 =
      some (Except.ok [], [none]) :=
  ⟨rfl, rfl, rfl⟩

/-- C3 (code bug): the update-loop guard compares each interface ID against
the boxed empty string, and a nil (unresolved) ID is not equal to it, so an
unresolved pair is NOT skipped — against the example schema with board
selector `"unknown-board#tab"` (options containing only `"gce"`), the board
option resolves to nil, yet the board update mutation is attempted as the
fourth update, with a nil option ID; the overall call still succeeds.  The
claim's skip semantics — also the guard's evident intent and the spec's
wording — does not hold of the program. -/
theorem claimC3_code_behavior :
    resolvedBoardPair exampleSchema "unknown-board#tab" = (some "BF", none) ∧
    (createDraftIssue exampleSchema "t" "b" "unknown-board#tab" exampleEffOk).attemptedUpdates =
      [⟨some "KF", some "KA", "K8s Release"⟩, ⟨some "VF", some "VA", "View"⟩,
       ⟨some "SF", some "SA", "Status"⟩, ⟨some "BF", none, "Testgrid Board"⟩] ∧
    (createDraftIssue exampleSchema "t" "b" "unknown-board#tab" exampleEffOk).result =
      Except.ok () :=
  ⟨rfl, rfl, rfl⟩

/-- C4: after a successful draft mutation, the set of attempted field-value
updates does not depend on the update outcomes (every remaining update is
attempted even when an earlier one fails), the call returns success even if
all attempted updates fail, and each update failure is reported only as a
warning. -/
theorem claimC4_update_failures_nonfatal :
    ∀ (fields : List ProjectFieldInfo) (title body board : String)
      (eff eff2 : DraftEffects) (i1 i2 : String),
    eff.draftResult = Except.ok i1 → eff2.draftResult = Except.ok i2 →
    (createDraftIssue fields title body board eff).attemptedUpdates =
      (createDraftIssue fields title body board eff2).attemptedUpdates ∧
    (createDraftIssue fields title body board eff).result = Except.ok () ∧
    (createDraftIssue fields title body board eff).warnings =
      (((resolveDraftFields fields board).filter updateEligible).enumFrom 0).filterMap
        (updateWarning eff) := by
  intro fields title body board eff eff2 i1 i2 h h2
  simp [createDraftIssue, h, h2, runUpdates_spec]

/-- Witness for C4: with effects where every update mutation fails, the
attempted updates coincide with the all-successful run, the call still
returns success, and the four failures (the unresolved board pair is also
attempted, with a nil option ID) surface as four warnings. -/
theorem claimC4_witness :
    exampleEffAllFail.draftResult = Except.ok "item" ∧
    (createDraftIssue exampleSchema "t" "b" "unknown-board#tab" exampleEffAllFail).attemptedUpdates =
      (createDraftIssue exampleSchema "t" "b" "unknown-board#tab" exampleEffOk).attemptedUpdates ∧
    (createDraftIssue exampleSchema "t" "b" "unknown-board#tab" exampleEffAllFail).result =
      Except.ok () ∧
    (createDraftIssue exampleSchema "t" "b" "unknown-board#tab" exampleEffAllFail).warnings =
      ["Warning: failed to update K8s Release field: boom",
       "Warning: failed to update View field: boom",
       "Warning: failed to update Status field: boom",
       "Warning: failed to update Testgrid Board field: boom"] := by
  have h := claimC4_update_failures_nonfatal exampleSchema "t" "b" "unknown-board#tab"
    exampleEffAllFail exampleEffOk "item" "item" rfl rfl
  refine ⟨rfl, h.1, h.2.1, ?_⟩
  rw [h.2.2]
  decide

/-- C7 counterexample: two board selectors with the same pre-hash segment
resolve to different board options against the same option set, so board
matching does not depend only on the pre-hash segment — the post-hash tab
segment is read. -/
theorem claimC7_counterexample :
    preHashSegment "x#gce" = preHashSegment "x#zzz" ∧
    resolvedBoardPair exampleBoardFields "x#gce" ≠ resolvedBoardPair exampleBoardFields "x#zzz" := by
  decide

/-- C7 amended: board-option matching in `CreateDraftIssue` tests each
option's lowercased label for containment in the ENTIRE board-grouping
selector string — including its post-hash segment — selecting the first
option whose lowered label occurs in the full selector; consequently the
resolved board option depends only on which option labels are substrings of
the full selector string. -/
theorem claimC7_amended_full_selector_matching :
    (∀ (fid fname : String) (opts : List FieldOption) (board : String),
      strContains (strToLower fname) "board" = true →
      resolvedBoardPair [⟨fid, fname, opts⟩] board =
        (some fid,
          match opts.find? (fun o => strContains board (strToLower o.name)) with
          | some o => some o.id
          | none => none)) ∧
    (∀ (fields : List ProjectFieldInfo) (b1 b2 : String),
      (∀ s, strContains b1 s = strContains b2 s) →
      resolvedBoardPair fields b1 = resolvedBoardPair fields b2) := by
  constructor
  · intro fid fname opts board hb
    by_cases hv : strContains (strToLower fname) "view" = true
    · cases hvf : opts.find? (fun o => viewOptionMatcher o.name) <;>
        cases hf : opts.find? (fun o => strContains board (strToLower o.name)) <;>
          simp [resolvedBoardPair, viewBoardLoop, hb, hv, hvf, hf]
    · cases hf : opts.find? (fun o => strContains board (strToLower o.name)) <;>
        simp [resolvedBoardPair, viewBoardLoop, hb, hv, hf]
  · intro fields b1 b2 hagree
    have hfun : (fun o : FieldOption => strContains b1 (strToLower o.name)) =
        (fun o : FieldOption => strContains b2 (strToLower o.name)) :=
      funext fun o => hagree _
    have hloop : ∀ (l : List ProjectFieldInfo) (st : ViewBoardState),
        viewBoardLoop b1 l st = viewBoardLoop b2 l st := by
      intro l
      induction l with
      | nil => intro st; rfl
      | cons f fs ih =>
        intro st
        simp only [viewBoardLoop, hfun]
        exact ih _
    simp [resolvedBoardPair, hloop]

/-- Witness for C7's amended theorem: against the single board field with
option `"gce"`, the selector `"x#gce"` (whose post-hash segment carries the
label) resolves the board option. -/
theorem claimC7_witness :
    resolvedBoardPair exampleBoardFields "x#gce" = (some "F", some "G") :=
  (claimC7_amended_full_selector_matching.1 "F" "Board" [⟨"gce", "G"⟩] "x#gce"
    (by decide)).trans (by decide)

/-- C8 counterexample: with two fields whose names contain `"view"`, the
first such field is `exampleViewA`, yet appending `exampleViewB` changes the
resolved view pair from `(some "FA", some "V1")` to `(some "FB", some "V2")`
— so the view slot
does not resolve to the first `"view"`-named field, and fields after the
first do affect the resolved pair. -/
theorem claimC8_counterexample :
    (([exampleViewA, exampleViewB] : List ProjectFieldInfo).find?
        (fun f => strContains (strToLower f.name) "view") = some exampleViewA) ∧
    resolvedViewPair [exampleViewA] "b" = (some "FA", some "V1") ∧
    resolvedViewPair [exampleViewA, exampleViewB] "b" = (some "FB", some "V2") ∧
    ((some "FB", some "V2") : Option String × Option String) ≠ (some "FA", some "V1") := by
  decide

/-- C8 amended: the view slot resolves to the LAST field in discovery order
whose name contains `"view"` (case-insensitive): each such field overwrites
the view field ID, and its first option whose label contains
`"issue-tracking"` or `"issue tracking"` overwrites the view option ID,
which is retained from earlier `"view"`-named fields when the later field
has no matching option. -/
theorem claimC8_amended_last_view_field_wins :
    ∀ (l : List ProjectFieldInfo) (f : ProjectFieldInfo) (board : String),
    resolvedViewPair (l ++ [f]) board =
      if strContains (strToLower f.name) "view" = true then
        (some f.id,
          match f.options.find? (fun o => viewOptionMatcher o.name) with
          | some o => some o.id
          | none => (resolvedViewPair l board).2)
      else resolvedViewPair l board := by
  intro l f board
  by_cases hv : strContains (strToLower f.name) "view" = true
  · by_cases hb : strContains (strToLower f.name) "board" = true
    · cases hvf : f.options.find? (fun o => viewOptionMatcher o.name) <;>
        cases hbf : f.options.find? (fun o => strContains board (strToLower o.name)) <;>
          simp [resolvedViewPair, viewBoardLoop_append, viewBoardLoop, hv, hb, hvf, hbf]
    · cases hvf : f.options.find? (fun o => viewOptionMatcher o.name) <;>
        simp [resolvedViewPair, viewBoardLoop_append, viewBoardLoop, hv, hb, hvf]
  · by_cases hb : strContains (strToLower f.name) "board" = true
    · cases hbf : f.options.find? (fun o => strContains board (strToLower o.name)) <;>
        simp [resolvedViewPair, viewBoardLoop_append, viewBoardLoop, hv, hb, hbf]
    · simp [resolvedViewPair, viewBoardLoop_append, viewBoardLoop, hv, hb]

/-- C6: both status scans examine only the first field in discovery order
whose name contains `"status"` (case-insensitive) — the fields after it,
including further `"status"`-named fields, never influence the result — and
within that field the result is its ID paired with the ID of the first
option accepted by the supplied matcher (or empty when none is). -/
theorem claimC6_first_status_field_only :
    ∀ (l1 : List ProjectFieldInfo) (f : ProjectFieldInfo) (l2 : List ProjectFieldInfo)
      (m : String → Bool),
    (∀ g ∈ l1, strContains (strToLower g.name) "status" = false) →
    strContains (strToLower f.name) "status" = true →
    findStatusFieldAndOption (l1 ++ f :: l2) m =
      (some f.id,
        match f.options.find? (fun o => m o.name) with
        | some o => some o.id
        | none => none) := by
  intro l1 f l2 m hnone hf
  have h1 : l1.find? (fun g => strContains (strToLower g.name) "status") = none :=
    List.find?_eq_none.mpr (fun g hg => by simp [hnone g hg])
  have h2 : (l1 ++ f :: l2).find? (fun g => strContains (strToLower g.name) "status") = some f := by
    rw [List.find?_append, h1, Option.none_or]
    exact List.find?_cons_of_pos l2 hf
  simp [findStatusFieldAndOption, h2]

/-- Witness for C6: on a status field with options `Drafting ↦ X` and
`Failing ↦ Y`, the draft matcher selects `X` and the retrieval matcher
selects `Y`; a second `"status"`-named field after it, though it carries a
failing-matching option `Z`, does not change the retrieval result. -/
theorem claimC6_witness :
    strContains (strToLower exampleStatusField.name) "status" = true ∧
    findStatusFieldAndOption [exampleStatusField] draftStatusMatcher =
      (some "S", some "X") ∧
    findStatusFieldAndOption [exampleStatusField, exampleStatusField2]
      retrievalStatusMatcher = (some "S", some "Y") := by
  refine ⟨by decide, ?_, ?_⟩
  · rw [show ([exampleStatusField] : List ProjectFieldInfo) = [] ++ exampleStatusField :: []
        from rfl,
      claimC6_first_status_field_only [] exampleStatusField [] draftStatusMatcher
        (by simp) (by decide)]
    decide
  · rw [show ([exampleStatusField, exampleStatusField2] : List ProjectFieldInfo) =
        [] ++ exampleStatusField :: [exampleStatusField2] from rfl,
      claimC6_first_status_field_only [] exampleStatusField [exampleStatusField2]
        retrievalStatusMatcher (by simp) (by decide)]
    decide

/-! ### Pagination step lemmas -/

theorem getProjectIssuesLoop_step_ok (server : Option String → Except String PageResponse)
    (kfid sfid latest : String) (fuel : Nat) (cursor : Option String)
    (acc : List Issue) (log : List (Option String)) (page : PageResponse)
    (h : server cursor = Except.ok page) :
    getProjectIssuesLoop server kfid sfid latest (fuel + 1) cursor acc log =
      if page.hasNextPage then
        getProjectIssuesLoop server kfid sfid latest fuel (some page.endCursor)
          (acc ++ filterPageItems kfid sfid latest page.items) (log ++ [cursor])
      else
        some (Except.ok (acc ++ filterPageItems kfid sfid latest page.items),
          log ++ [cursor]) := by
  simp [getProjectIssuesLoop, h]

theorem getProjectIssuesLoop_step_err (server : Option String → Except String PageResponse)
    (kfid sfid latest : String) (fuel : Nat) (cursor : Option String)
    (acc : List Issue) (log : List (Option String)) (e : String)
    (h : server cursor = Except.error e) :
    getProjectIssuesLoop server kfid sfid latest (fuel + 1) cursor acc log =
      some (Except.error ("failed to query project issues: " ++ e), log ++ [cursor]) := by
  simp [getProjectIssuesLoop, h]

theorem getProjectIssues_eq_loop (fields : List ProjectFieldInfo)
    (server : Option String → Except String PageResponse) (fuel : Nat)
    (hk : (findK8sReleaseFieldAndLatestVersion fields).2 ≠ some "")
    (hs : (findStatusFieldAndOption fields retrievalStatusMatcher).2 ≠ some "") :
    getProjectIssues fields server fuel =
      getProjectIssuesLoop server (goIDPrint (findK8sReleaseFieldAndLatestVersion fields).1)
        (goIDPrint (findStatusFieldAndOption fields retrievalStatusMatcher).1)
        (computeLatestVersionStr fields (findK8sReleaseFieldAndLatestVersion fields).1
          (findK8sReleaseFieldAndLatestVersion fields).2) fuel none [] [] := by
  simp [getProjectIssues, hk, hs]

/-- C9: whenever neither resolved option ID is the boxed empty string (in
particular whenever resolution succeeds), retrieval issues one item query
per page, passing the previous page's end cursor — for a two-page response
(page 1 `hasNextPage = true`, page 2 `hasNextPage = false`) exactly two
queries, at cursors `none` and `some page1.endCursor`, returning page 1's
matching items followed by page 2's — and when any page's query fails the
whole call returns only that error, never a partial item list. -/
theorem claimC9_two_page_pagination :
    (∀ (fields : List ProjectFieldInfo)
       (server : Option String → Except String PageResponse)
       (p1 p2 : PageResponse) (fuel : Nat),
      2 ≤ fuel →
      (findK8sReleaseFieldAndLatestVersion fields).2 ≠ some "" →
      (findStatusFieldAndOption fields retrievalStatusMatcher).2 ≠ some "" →
      server none = Except.ok p1 → p1.hasNextPage = true →
      server (some p1.endCursor) = Except.ok p2 → p2.hasNextPage = false →
      getProjectIssues fields server fuel =
        some (Except.ok (retrievalFilter fields p1.items ++ retrievalFilter fields p2.items),
          [none, some p1.endCursor])) ∧
    (∀ (fields : List ProjectFieldInfo)
       (server : Option String → Except String PageResponse)
       (p1 : PageResponse) (e : String) (fuel : Nat),
      2 ≤ fuel →
      (findK8sReleaseFieldAndLatestVersion fields).2 ≠ some "" →
      (findStatusFieldAndOption fields retrievalStatusMatcher).2 ≠ some "" →
      server none = Except.ok p1 → p1.hasNextPage = true →
      server (some p1.endCursor) = Except.error e →
      getProjectIssues fields server fuel =
        some (Except.error ("failed to query project issues: " ++ e),
          [none, some p1.endCursor])) ∧
    (∀ (fields : List ProjectFieldInfo)
       (server : Option String → Except String PageResponse) (e : String) (fuel : Nat),
      1 ≤ fuel →
      (findK8sReleaseFieldAndLatestVersion fields).2 ≠ some "" →
      (findStatusFieldAndOption fields retrievalStatusMatcher).2 ≠ some "" →
      server none = Except.error e →
      getProjectIssues fields server fuel =
        some (Except.error ("failed to query project issues: " ++ e), [none])) := by
  refine ⟨?_, ?_, ?_⟩
  · intro fields server p1 p2 fuel hfuel hk hs h1 hn1 h2 hn2
    obtain ⟨n, rfl⟩ : ∃ n, fuel = n + 2 := ⟨fuel - 2, by omega⟩
    rw [getProjectIssues_eq_loop fields server _ hk hs,
      show n + 2 = (n + 1) + 1 from rfl,
      getProjectIssuesLoop_step_ok _ _ _ _ _ _ _ _ _ h1, hn1]
    simp only [if_true]
    rw [getProjectIssuesLoop_step_ok _ _ _ _ _ _ _ _ _ h2, hn2]
    simp [retrievalFilter]
  · intro fields server p1 e fuel hfuel hk hs h1 hn1 h2
    obtain ⟨n, rfl⟩ : ∃ n, fuel = n + 2 := ⟨fuel - 2, by omega⟩
    rw [getProjectIssues_eq_loop fields server _ hk hs,
      show n + 2 = (n + 1) + 1 from rfl,
      getProjectIssuesLoop_step_ok _ _ _ _ _ _ _ _ _ h1, hn1]
    simp only [if_true]
    rw [getProjectIssuesLoop_step_err _ _ _ _ _ _ _ _ _ h2]
    simp
  · intro fields server e fuel hfuel hk hs h1
    obtain ⟨n, rfl⟩ : ∃ n, fuel = n + 1 := ⟨fuel - 1, by omega⟩
    rw [getProjectIssues_eq_loop fields server _ hk hs,
      getProjectIssuesLoop_step_err _ _ _ _ _ _ _ _ _ h1]
    simp

/-- Witness for C9: against the example schema and the concrete two-page
server, retrieval issues exactly the two queries `none` and `some "cur1"`
and returns both pages' matching items in page order; against the server
whose second query fails it returns only the error. -/
theorem claimC9_witness :
    examplePage1.hasNextPage = true ∧
    getProjectIssues exampleSchema exampleServer 2 =
      some (Except.ok (retrievalFilter exampleSchema examplePage1.items ++
        retrievalFilter exampleSchema examplePage2.items), [none, some "cur1"]) ∧
    getProjectIssues exampleSchema exampleServerErr 2 =
      some (Except.error ("failed to query project issues: " ++ "boom"),
        [none, some "cur1"]) := by
  refine ⟨rfl, ?_, ?_⟩
  · exact claimC9_two_page_pagination.1 exampleSchema exampleServer examplePage1 examplePage2 2
      (by omega) (by decide) (by decide) rfl rfl rfl rfl
  · exact claimC9_two_page_pagination.2.1 exampleSchema exampleServerErr examplePage1 "boom" 2
      (by omega) (by decide) (by decide) rfl rfl rfl

/-! ### The per-item scan as two independent any-scans -/

theorem scanFieldValues_spec (kfid sfid latest : String) :
    ∀ (vs : List FieldValueNode) (mv ms : Bool),
    scanFieldValues kfid sfid latest vs mv ms =
      (mv || vs.any (fun v =>
          v.typename == "ProjectV2ItemFieldSingleSelectValue" &&
            (v.fieldID == kfid && extractVersion v.optionName == latest)),
       ms || vs.any (fun v =>
          v.typename == "ProjectV2ItemFieldSingleSelectValue" &&
            (v.fieldID == sfid &&
              (strContains (strToLower v.optionName) "failing" ||
                strContains (strToLower v.optionName) "flaky")))) := by
  intro vs
  induction vs with
  | nil => intro mv ms; simp [scanFieldValues]
  | cons v vs ih =>
    intro mv ms
    cases ht : (v.typename == "ProjectV2ItemFieldSingleSelectValue") with
    | false => simp [scanFieldValues, ht, ih]
    | true =>
      cases hc1 : (v.fieldID == kfid && (extractVersion v.optionName == latest)) <;>
        cases hc2 : (v.fieldID == sfid &&
            (strContains (strToLower v.optionName) "failing" ||
              strContains (strToLower v.optionName) "flaky")) <;>
          simp [scanFieldValues, ht, hc1, hc2, ih]

/-- C2: an item is included in the retrieval result exactly when its content
type is `"Issue"` and its field-value list passes the two independent
single-select scans — some value of the resolved release field whose label's
extracted version equals the target version, and some value of the resolved
status field whose label contains `"failing"` or `"flaky"`
(case-insensitive) — in either order; non-`"Issue"` items (drafts, pull
requests) are never included. -/
theorem claimC2_item_inclusion_iff :
    ∀ (kfid sfid latest : String) (ns : List ItemNode),
    filterPageItems kfid sfid latest ns =
      (ns.filter (itemIncludedB kfid sfid latest)).map toIssue ∧
    (∀ n : ItemNode, itemIncludedB kfid sfid latest n = true ↔
      (n.contentTypename = "Issue" ∧
       (∃ v ∈ n.fieldValues, v.typename = "ProjectV2ItemFieldSingleSelectValue" ∧
          v.fieldID = kfid ∧ extractVersion v.optionName = latest) ∧
       (∃ v ∈ n.fieldValues, v.typename = "ProjectV2ItemFieldSingleSelectValue" ∧
          v.fieldID = sfid ∧
          (strContains (strToLower v.optionName) "failing" = true ∨
            strContains (strToLower v.optionName) "flaky" = true)))) := by
  intro kfid sfid latest ns
  constructor
  · induction ns with
    | nil => simp [filterPageItems]
    | cons n ns ih =>
      cases hct : (n.contentTypename == "Issue") with
      | false => simp [filterPageItems, hct, itemIncludedB, List.filter_cons, ih]
      | true =>
        cases ha1 : n.fieldValues.any (fun v =>
            v.typename == "ProjectV2ItemFieldSingleSelectValue" &&
              (v.fieldID == kfid && extractVersion v.optionName == latest)) <;>
          cases ha2 : n.fieldValues.any (fun v =>
              v.typename == "ProjectV2ItemFieldSingleSelectValue" &&
                (v.fieldID == sfid &&
                  (strContains (strToLower v.optionName) "failing" ||
                    strContains (strToLower v.optionName) "flaky"))) <;>
            simp [filterPageItems, hct, scanFieldValues_spec, ha1, ha2,
              itemIncludedB, List.filter_cons, ih]
  · intro n
    simp only [itemIncludedB, Bool.and_eq_true, beq_iff_eq, List.any_eq_true,
      Bool.or_eq_true, and_assoc]

/-! ### Characterizations of the `compareVersions` loop -/

theorem cmpInts_nil_right : ∀ a : List Int, cmpInts a [] = cmpListZero a := by
  intro a
  cases a <;> rfl

theorem cmpZeroList_eq_zero_iff : ∀ b : List Int, cmpZeroList b = 0 ↔ ∀ i, b.getD i 0 = 0 := by
  intro b
  induction b with
  | nil => simp [cmpZeroList]
  | cons y ys ih =>
    simp only [cmpZeroList]
    by_cases h1 : 0 > y
    · rw [if_pos h1]
      constructor
      · intro h; omega
      · intro h; have h0 := h 0; rw [List.getD_cons_zero] at h0; omega
    · by_cases h2 : 0 < y
      · rw [if_neg h1, if_pos h2]
        constructor
        · intro h; omega
        · intro h; have h0 := h 0; rw [List.getD_cons_zero] at h0; omega
      · rw [if_neg h1, if_neg h2, ih]
        constructor
        · intro h i
          cases i with
          | zero => rw [List.getD_cons_zero]; omega
          | succ k => rw [List.getD_cons_succ]; exact h k
        · intro h k
          have hk := h (k + 1); rw [List.getD_cons_succ] at hk; exact hk

theorem cmpListZero_eq_zero_iff : ∀ a : List Int, cmpListZero a = 0 ↔ ∀ i, a.getD i 0 = 0 := by
  intro a
  induction a with
  | nil => simp [cmpListZero]
  | cons x xs ih =>
    simp only [cmpListZero]
    by_cases h1 : x > 0
    · rw [if_pos h1]
      constructor
      · intro h; omega
      · intro h; have h0 := h 0; rw [List.getD_cons_zero] at h0; omega
    · by_cases h2 : x < 0
      · rw [if_neg h1, if_pos h2]
        constructor
        · intro h; omega
        · intro h; have h0 := h 0; rw [List.getD_cons_zero] at h0; omega
      · rw [if_neg h1, if_neg h2, ih]
        constructor
        · intro h i
          cases i with
          | zero => rw [List.getD_cons_zero]; omega
          | succ k => rw [List.getD_cons_succ]; exact h k
        · intro h k
          have hk := h (k + 1); rw [List.getD_cons_succ] at hk; exact hk

theorem cmpInts_eq_zero_iff :
    ∀ a b : List Int, cmpInts a b = 0 ↔ ∀ i, a.getD i 0 = b.getD i 0 := by
  intro a
  induction a with
  | nil =>
    intro b
    show cmpZeroList b = 0 ↔ _
    rw [cmpZeroList_eq_zero_iff]
    constructor
    · intro h i; rw [List.getD_nil]; exact (h i).symm
    · intro h i; have hi := h i; rw [List.getD_nil] at hi; exact hi.symm
  | cons x xs ih =>
    intro b
    cases b with
    | nil =>
      rw [cmpInts_nil_right, cmpListZero_eq_zero_iff]
      constructor
      · intro h i; rw [List.getD_nil]; exact h i
      · intro h i; have hi := h i; rw [List.getD_nil] at hi; exact hi
    | cons y ys =>
      simp only [cmpInts]
      by_cases h1 : x > y
      · rw [if_pos h1]
        constructor
        · intro h; omega
        · intro h
          have h0 := h 0
          rw [List.getD_cons_zero, List.getD_cons_zero] at h0; omega
      · by_cases h2 : x < y
        · rw [if_neg h1, if_pos h2]
          constructor
          · intro h; omega
          · intro h
            have h0 := h 0
            rw [List.getD_cons_zero, List.getD_cons_zero] at h0; omega
        · rw [if_neg h1, if_neg h2, ih]
          constructor
          · intro h i
            cases i with
            | zero => rw [List.getD_cons_zero, List.getD_cons_zero]; omega
            | succ k => rw [List.getD_cons_succ, List.getD_cons_succ]; exact h k
          · intro h k
            have hk := h (k + 1)
            rw [List.getD_cons_succ, List.getD_cons_succ] at hk; exact hk

theorem cmpZeroList_eq_one_iff :
    ∀ b : List Int, cmpZeroList b = 1 ↔
      ∃ i, b.getD i 0 < 0 ∧ ∀ j, j < i → b.getD j 0 = 0 := by
  intro b
  induction b with
  | nil => simp [cmpZeroList]
  | cons y ys ih =>
    simp only [cmpZeroList]
    by_cases h1 : 0 > y
    · rw [if_pos h1]
      constructor
      · intro _
        exact ⟨0, by rw [List.getD_cons_zero]; omega, fun j hj => absurd hj (Nat.not_lt_zero j)⟩
      · intro _; rfl
    · by_cases h2 : 0 < y
      · rw [if_neg h1, if_pos h2]
        constructor
        · intro h; omega
        · rintro ⟨i, hi, hj⟩
          cases i with
          | zero => rw [List.getD_cons_zero] at hi; omega
          | succ k =>
            have h0 := hj 0 (Nat.succ_pos k)
            rw [List.getD_cons_zero] at h0; omega
      · rw [if_neg h1, if_neg h2, ih]
        constructor
        · rintro ⟨i, hi, hj⟩
          refine ⟨i + 1, by rw [List.getD_cons_succ]; exact hi, ?_⟩
          intro j hj2
          cases j with
          | zero => rw [List.getD_cons_zero]; omega
          | succ k => rw [List.getD_cons_succ]; exact hj k (by omega)
        · rintro ⟨i, hi, hj⟩
          cases i with
          | zero => rw [List.getD_cons_zero] at hi; omega
          | succ k =>
            rw [List.getD_cons_succ] at hi
            refine ⟨k, hi, fun j hjk => ?_⟩
            have := hj (j + 1) (by omega)
            rw [List.getD_cons_succ] at this; exact this

theorem cmpListZero_eq_one_iff :
    ∀ a : List Int, cmpListZero a = 1 ↔
      ∃ i, 0 < a.getD i 0 ∧ ∀ j, j < i → a.getD j 0 = 0 := by
  intro a
  induction a with
  | nil => simp [cmpListZero]
  | cons x xs ih =>
    simp only [cmpListZero]
    by_cases h1 : x > 0
    · rw [if_pos h1]
      constructor
      · intro _
        exact ⟨0, by rw [List.getD_cons_zero]; omega, fun j hj => absurd hj (Nat.not_lt_zero j)⟩
      · intro _; rfl
    · by_cases h2 : x < 0
      · rw [if_neg h1, if_pos h2]
        constructor
        · intro h; omega
        · rintro ⟨i, hi, hj⟩
          cases i with
          | zero => rw [List.getD_cons_zero] at hi; omega
          | succ k =>
            have h0 := hj 0 (Nat.succ_pos k)
            rw [List.getD_cons_zero] at h0; omega
      · rw [if_neg h1, if_neg h2, ih]
        constructor
        · rintro ⟨i, hi, hj⟩
          refine ⟨i + 1, by rw [List.getD_cons_succ]; exact hi, ?_⟩
          intro j hj2
          cases j with
          | zero => rw [List.getD_cons_zero]; omega
          | succ k => rw [List.getD_cons_succ]; exact hj k (by omega)
        · rintro ⟨i, hi, hj⟩
          cases i with
          | zero => rw [List.getD_cons_zero] at hi; omega
          | succ k =>
            rw [List.getD_cons_succ] at hi
            refine ⟨k, hi, fun j hjk => ?_⟩
            have := hj (j + 1) (by omega)
            rw [List.getD_cons_succ] at this; exact this

theorem cmpInts_eq_one_iff :
    ∀ a b : List Int, cmpInts a b = 1 ↔
      ∃ i, b.getD i 0 < a.getD i 0 ∧ ∀ j, j < i → a.getD j 0 = b.getD j 0 := by
  intro a
  induction a with
  | nil =>
    intro b
    show cmpZeroList b = 1 ↔ _
    rw [cmpZeroList_eq_one_iff]
    constructor
    · rintro ⟨i, hi, hj⟩
      refine ⟨i, by rw [List.getD_nil]; omega, fun j hjk => ?_⟩
      rw [List.getD_nil]; exact (hj j hjk).symm
    · rintro ⟨i, hi, hj⟩
      rw [List.getD_nil] at hi
      refine ⟨i, hi, fun j hjk => ?_⟩
      have := hj j hjk; rw [List.getD_nil] at this; exact this.symm
  | cons x xs ih =>
    intro b
    cases b with
    | nil =>
      rw [cmpInts_nil_right, cmpListZero_eq_one_iff]
      constructor
      · rintro ⟨i, hi, hj⟩
        refine ⟨i, by rw [List.getD_nil]; omega, fun j hjk => ?_⟩
        rw [List.getD_nil]; exact hj j hjk
      · rintro ⟨i, hi, hj⟩
        rw [List.getD_nil] at hi
        refine ⟨i, hi, fun j hjk => ?_⟩
        have := hj j hjk; rw [List.getD_nil] at this; exact this
    | cons y ys =>
      simp only [cmpInts]
      by_cases h1 : x > y
      · rw [if_pos h1]
        constructor
        · intro _
          refine ⟨0, ?_, fun j hj => absurd hj (Nat.not_lt_zero j)⟩
          rw [List.getD_cons_zero, List.getD_cons_zero]; omega
        · intro _; rfl
      · by_cases h2 : x < y
        · rw [if_neg h1, if_pos h2]
          constructor
          · intro h; omega
          · rintro ⟨i, hi, hj⟩
            cases i with
            | zero => rw [List.getD_cons_zero, List.getD_cons_zero] at hi; omega
            | succ k =>
              have h0 := hj 0 (Nat.succ_pos k)
              rw [List.getD_cons_zero, List.getD_cons_zero] at h0; omega
        · rw [if_neg h1, if_neg h2, ih]
          constructor
          · rintro ⟨i, hi, hj⟩
            refine ⟨i + 1, by rw [List.getD_cons_succ, List.getD_cons_succ]; exact hi, ?_⟩
            intro j hj2
            cases j with
            | zero => rw [List.getD_cons_zero, List.getD_cons_zero]; omega
            | succ k =>
              rw [List.getD_cons_succ, List.getD_cons_succ]
              exact hj k (by omega)
          · rintro ⟨i, hi, hj⟩
            cases i with
            | zero => rw [List.getD_cons_zero, List.getD_cons_zero] at hi; omega
            | succ k =>
              rw [List.getD_cons_succ, List.getD_cons_succ] at hi
              refine ⟨k, hi, fun j hjk => ?_⟩
              have := hj (j + 1) (by omega)
              rw [List.getD_cons_succ, List.getD_cons_succ] at this; exact this

theorem cmpZeroList_trichotomy : ∀ b : List Int,
    cmpZeroList b = 1 ∨ cmpZeroList b = 0 ∨ cmpZeroList b = -1 := by
  intro b
  induction b with
  | nil => right; left; rfl
  | cons y ys ih =>
    simp only [cmpZeroList]
    by_cases h1 : 0 > y
    · rw [if_pos h1]; left; rfl
    · by_cases h2 : 0 < y
      · rw [if_neg h1, if_pos h2]; right; right; rfl
      · rw [if_neg h1, if_neg h2]; exact ih

theorem cmpListZero_trichotomy : ∀ a : List Int,
    cmpListZero a = 1 ∨ cmpListZero a = 0 ∨ cmpListZero a = -1 := by
  intro a
  induction a with
  | nil => right; left; rfl
  | cons x xs ih =>
    simp only [cmpListZero]
    by_cases h1 : x > 0
    · rw [if_pos h1]; left; rfl
    · by_cases h2 : x < 0
      · rw [if_neg h1, if_pos h2]; right; right; rfl
      · rw [if_neg h1, if_neg h2]; exact ih

theorem cmpInts_trichotomy : ∀ a b : List Int,
    cmpInts a b = 1 ∨ cmpInts a b = 0 ∨ cmpInts a b = -1 := by
  intro a
  induction a with
  | nil => intro b; exact cmpZeroList_trichotomy b
  | cons x xs ih =>
    intro b
    cases b with
    | nil => rw [cmpInts_nil_right]; exact cmpListZero_trichotomy _
    | cons y ys =>
      simp only [cmpInts]
      by_cases h1 : x > y
      · rw [if_pos h1]; left; rfl
      · by_cases h2 : x < y
        · rw [if_neg h1, if_pos h2]; right; right; rfl
        · rw [if_neg h1, if_neg h2]; exact ih ys

theorem cmpZeroList_neg_cmpListZero : ∀ a : List Int, cmpZeroList a = - cmpListZero a := by
  intro a
  induction a with
  | nil => rfl
  | cons x xs ih =>
    simp only [cmpZeroList, cmpListZero]
    by_cases h1 : 0 > x
    · rw [if_pos h1, if_neg (by omega : ¬ x > 0), if_pos (by omega : x < 0)]; rfl
    · by_cases h2 : 0 < x
      · rw [if_neg h1, if_pos h2, if_pos (by omega : x > 0)]
      · rw [if_neg h1, if_neg h2, if_neg (by omega : ¬ x > 0), if_neg (by omega : ¬ x < 0)]
        exact ih

theorem cmpInts_antisymm : ∀ a b : List Int, cmpInts a b = - cmpInts b a := by
  intro a
  induction a with
  | nil =>
    intro b
    show cmpZeroList b = - cmpInts b []
    rw [cmpInts_nil_right]
    exact cmpZeroList_neg_cmpListZero b
  | cons x xs ih =>
    intro b
    cases b with
    | nil =>
      rw [cmpInts_nil_right]
      show cmpListZero (x :: xs) = - cmpZeroList (x :: xs)
      rw [cmpZeroList_neg_cmpListZero]; omega
    | cons y ys =>
      simp only [cmpInts]
      by_cases h1 : x > y
      · rw [if_pos h1, if_neg (by omega : ¬ y > x), if_pos (by omega : y < x)]; rfl
      · by_cases h2 : x < y
        · rw [if_neg h1, if_pos h2, if_pos (by omega : y > x)]
        · rw [if_neg h1, if_neg h2, if_neg (by omega : ¬ y > x), if_neg (by omega : ¬ y < x)]
          rw [ih ys]

theorem cmpInts_gt_trans : ∀ a b c : List Int,
    cmpInts a b = 1 → cmpInts b c = 1 → cmpInts a c = 1 := by
  intro a b c hab hbc
  rw [cmpInts_eq_one_iff] at hab hbc ⊢
  obtain ⟨i, hi, hij⟩ := hab
  obtain ⟨k, hk, hkj⟩ := hbc
  refine ⟨min i k, ?_, ?_⟩
  · rcases Nat.lt_trichotomy i k with h | h | h
    · have heq := hkj i h
      rw [Nat.min_def, if_pos (Nat.le_of_lt h)]
      omega
    · subst h
      rw [Nat.min_self]
      omega
    · have heq := hij k h
      rw [Nat.min_def, if_neg (by omega : ¬ i ≤ k)]
      omega
  · intro j hj
    have e1 := hij j (by omega)
    have e2 := hkj j (by omega)
    omega

theorem cmpInts_gt_of_gt_of_eq : ∀ a b c : List Int,
    cmpInts a b = 1 → cmpInts b c = 0 → cmpInts a c = 1 := by
  intro a b c hab hbc
  rw [cmpInts_eq_one_iff] at hab ⊢
  rw [cmpInts_eq_zero_iff] at hbc
  obtain ⟨i, hi, hij⟩ := hab
  refine ⟨i, by have := hbc i; omega, fun j hj => ?_⟩
  have := hbc j
  have := hij j hj
  omega

theorem cmpInts_gt_of_eq_of_gt : ∀ a b c : List Int,
    cmpInts a b = 0 → cmpInts b c = 1 → cmpInts a c = 1 := by
  intro a b c hab hbc
  rw [cmpInts_eq_zero_iff] at hab
  rw [cmpInts_eq_one_iff] at hbc ⊢
  obtain ⟨i, hi, hij⟩ := hbc
  refine ⟨i, by have := hab i; omega, fun j hj => ?_⟩
  have := hab j
  have := hij j hj
  omega

/-! ### The same facts lifted to `compareVersions` -/

theorem compareVersions_refl (v : String) : compareVersions v v = 0 :=
  (cmpInts_eq_zero_iff _ _).mpr (fun _ => rfl)

theorem compareVersions_trichotomy (a b : String) :
    compareVersions a b = 1 ∨ compareVersions a b = 0 ∨ compareVersions a b = -1 :=
  cmpInts_trichotomy _ _

theorem compareVersions_antisymm (a b : String) :
    compareVersions a b = - compareVersions b a :=
  cmpInts_antisymm _ _

theorem compareVersions_gt_trans (a b c : String) :
    compareVersions a b = 1 → compareVersions b c = 1 → compareVersions a c = 1 :=
  cmpInts_gt_trans _ _ _

theorem compareVersions_gt_of_gt_of_eq (a b c : String) :
    compareVersions a b = 1 → compareVersions b c = 0 → compareVersions a c = 1 :=
  cmpInts_gt_of_gt_of_eq _ _ _

theorem compareVersions_gt_of_eq_of_gt (a b c : String) :
    compareVersions a b = 0 → compareVersions b c = 1 → compareVersions a c = 1 :=
  cmpInts_gt_of_eq_of_gt _ _ _

/-- C10 counterexample: under the claim's reading — every segment that
`strconv.Atoi` fails to parse is treated as 0 — the versions
`"1.9999999999999999999"` and `"1.0"` have pairwise equal segment values
(the 19-digit segment is out of the 64-bit range, so `Atoi` errors), yet
`compareVersions` returns 1, not 0: the discarded-error value is the clamped
`MaxInt64`, not 0. -/
theorem claimC10_counterexample :
    specVersionSegs "1.9999999999999999999" = specVersionSegs "1.0" ∧
    compareVersions "1.9999999999999999999" "1.0" = 1 := by
  decide

/-- C10 amended: a missing or syntactically non-numeric segment is treated
as 0, while a syntactically numeric segment out of the 64-bit range is
clamped to the int64 bound; `compareVersions` returns 0 exactly when the
per-index segment values under this semantics are pairwise equal — in
particular 0 for `"1.x"` vs `"1.0"` and `"1.30"` vs `"1.30.beta"`. -/
theorem claimC10_amended_zero_iff_segments_equal :
    (∀ v1 v2 : String,
      compareVersions v1 v2 = 0 ↔
        ∀ i, (versionSegs v1).getD i 0 = (versionSegs v2).getD i 0) ∧
    compareVersions "1.x" "1.0" = 0 ∧
    compareVersions "1.30" "1.30.beta" = 0 := by
  refine ⟨fun v1 v2 => cmpInts_eq_zero_iff _ _, by decide, by decide⟩

/-! ### Characterization of the release-option scan -/

theorem findLatestAux_char :
    ∀ (opts : List FieldOption) (lv lid : String),
    (findLatestAux opts lv lid = (lv, lid) ∧
      ∀ o ∈ opts, extractVersion o.name ≠ "" →
        lv ≠ "" ∧ ¬ compareVersions (extractVersion o.name) lv > 0) ∨
    (∃ i, ∃ h : i < opts.length,
      (findLatestAux opts lv lid).2 = (opts.get ⟨i, h⟩).id ∧
      (findLatestAux opts lv lid).1 = extractVersion (opts.get ⟨i, h⟩).name ∧
      extractVersion (opts.get ⟨i, h⟩).name ≠ "" ∧
      (lv = "" ∨ compareVersions (findLatestAux opts lv lid).1 lv = 1) ∧
      (∀ j, ∀ hj : j < opts.length, extractVersion (opts.get ⟨j, hj⟩).name ≠ "" →
        (j < i → compareVersions (findLatestAux opts lv lid).1
            (extractVersion (opts.get ⟨j, hj⟩).name) = 1) ∧
        compareVersions (findLatestAux opts lv lid).1
            (extractVersion (opts.get ⟨j, hj⟩).name) ≠ -1)) := by
  intro opts
  induction opts with
  | nil =>
    intro lv lid
    left
    exact ⟨rfl, fun o ho => absurd ho (List.not_mem_nil o)⟩
  | cons o os ih =>
    intro lv lid
    by_cases hv : extractVersion o.name = ""
    · have hred : findLatestAux (o :: os) lv lid = findLatestAux os lv lid := by
        simp [findLatestAux, hv]
      rw [hred]
      rcases ih lv lid with ⟨heq, hbound⟩ | ⟨i, h, hid, hlv, hvne, hrel, hall⟩
      · left
        refine ⟨heq, ?_⟩
        intro o2 ho2 hvo2
        rcases List.mem_cons.mp ho2 with rfl | hmem
        · exact absurd hv hvo2
        · exact hbound o2 hmem hvo2
      · right
        refine ⟨i + 1, Nat.succ_lt_succ h, ?_, ?_, ?_, hrel, ?_⟩
        · rw [List.get_cons_succ]; exact hid
        · rw [List.get_cons_succ]; exact hlv
        · rw [List.get_cons_succ]; exact hvne
        · intro j hj hvj
          cases j with
          | zero =>
            exact absurd hv hvj
          | succ k =>
            have hk : k < os.length := by
              simp only [List.length_cons] at hj; omega
            rw [List.get_cons_succ] at hvj ⊢
            have hres := hall k hk hvj
            exact ⟨fun hki => hres.1 (by omega), hres.2⟩
    · by_cases himp : lv = "" ∨ compareVersions (extractVersion o.name) lv > 0
      · have hred : findLatestAux (o :: os) lv lid =
            findLatestAux os (extractVersion o.name) o.id := by
          simp [findLatestAux, hv, himp]
        rw [hred]
        have hvlv1 : lv ≠ "" → compareVersions (extractVersion o.name) lv = 1 := by
          intro hlvne
          have hgt := himp.resolve_left hlvne
          rcases compareVersions_trichotomy (extractVersion o.name) lv with h1 | h1 | h1 <;>
            omega
        rcases ih (extractVersion o.name) o.id with ⟨heq, hbound⟩ | ⟨i, h, hid, hlv, hvne, hrel, hall⟩
        · right
          refine ⟨0, Nat.succ_pos os.length, ?_, ?_, ?_, ?_, ?_⟩
          · rw [heq]; exact rfl
          · rw [heq]; exact rfl
          · exact hv
          · rcases Classical.em (lv = "") with h0 | h0
            · exact Or.inl h0
            · refine Or.inr ?_
              rw [heq]
              exact hvlv1 h0
          · intro j hj hvj
            cases j with
            | zero =>
              constructor
              · intro h0; exact absurd h0 (Nat.not_lt_zero 0)
              · show compareVersions (findLatestAux os (extractVersion o.name) o.id).1
                    (extractVersion o.name) ≠ -1
                rw [heq]
                show compareVersions (extractVersion o.name) (extractVersion o.name) ≠ -1
                rw [compareVersions_refl]; omega
            | succ k =>
              have hk : k < os.length := by
                simp only [List.length_cons] at hj; omega
              rw [List.get_cons_succ] at hvj ⊢
              have hnot := (hbound (os.get ⟨k, hk⟩) (List.get_mem os k hk) hvj).2
              constructor
              · intro h0; exact absurd h0 (Nat.not_lt_zero (k + 1))
              · intro hneg
                apply hnot
                have hneg2 : compareVersions (extractVersion o.name)
                    (extractVersion (os.get ⟨k, hk⟩).name) = -1 := by
                  rw [heq] at hneg; exact hneg
                have hanti := compareVersions_antisymm (extractVersion o.name)
                  (extractVersion (os.get ⟨k, hk⟩).name)
                omega
        · right
          have hr1 : compareVersions (findLatestAux os (extractVersion o.name) o.id).1
              (extractVersion o.name) = 1 := hrel.resolve_left hv
          refine ⟨i + 1, Nat.succ_lt_succ h, ?_, ?_, ?_, ?_, ?_⟩
          · rw [List.get_cons_succ]; exact hid
          · rw [List.get_cons_succ]; exact hlv
          · rw [List.get_cons_succ]; exact hvne
          · rcases Classical.em (lv = "") with h0 | h0
            · exact Or.inl h0
            · exact Or.inr (compareVersions_gt_trans _ _ _ hr1 (hvlv1 h0))
          · intro j hj hvj
            cases j with
            | zero =>
              refine ⟨fun h0 => hr1, ?_⟩
              show compareVersions (findLatestAux os (extractVersion o.name) o.id).1
                  (extractVersion o.name) ≠ -1
              omega
            | succ k =>
              have hk : k < os.length := by
                simp only [List.length_cons] at hj; omega
              rw [List.get_cons_succ] at hvj ⊢
              have hres := hall k hk hvj
              exact ⟨fun hki => hres.1 (by omega), hres.2⟩
      · have hred : findLatestAux (o :: os) lv lid = findLatestAux os lv lid := by
          simp [findLatestAux, hv, himp]
        rw [hred]
        push_neg at himp
        obtain ⟨hlvne, hng⟩ := himp
        rcases ih lv lid with ⟨heq, hbound⟩ | ⟨i, h, hid, hlv, hvne, hrel, hall⟩
        · left
          refine ⟨heq, ?_⟩
          intro o2 ho2 hvo2
          rcases List.mem_cons.mp ho2 with rfl | hmem
          · exact ⟨hlvne, by omega⟩
          · exact hbound o2 hmem hvo2
        · right
          have hr1 : compareVersions (findLatestAux os lv lid).1 lv = 1 :=
            hrel.resolve_left hlvne
          refine ⟨i + 1, Nat.succ_lt_succ h, ?_, ?_, ?_, hrel, ?_⟩
          · rw [List.get_cons_succ]; exact hid
          · rw [List.get_cons_succ]; exact hlv
          · rw [List.get_cons_succ]; exact hvne
          · intro j hj hvj
            cases j with
            | zero =>
              have hstrict : compareVersions (findLatestAux os lv lid).1
                  (extractVersion o.name) = 1 := by
                rcases compareVersions_trichotomy (extractVersion o.name) lv with h1 | h1 | h1
                · omega
                · have hanti := compareVersions_antisymm lv (extractVersion o.name)
                  exact compareVersions_gt_of_gt_of_eq _ _ _ hr1 (by omega)
                · have hanti := compareVersions_antisymm lv (extractVersion o.name)
                  exact compareVersions_gt_trans _ _ _ hr1 (by omega)
              refine ⟨fun h0 => hstrict, ?_⟩
              show compareVersions (findLatestAux os lv lid).1 (extractVersion o.name) ≠ -1
              omega
            | succ k =>
              have hk : k < os.length := by
                simp only [List.length_cons] at hj; omega
              rw [List.get_cons_succ] at hvj ⊢
              have hres := hall k hk hvj
              exact ⟨fun hki => hres.1 (by omega), hres.2⟩

/-- C5: release resolution returns the ID of the first field in discovery
order whose name contains `"k8s release"` (case-insensitive); when an option
is selected, it is an option of that field whose label contains a version
pattern (never a pattern-free option), its extracted version is strictly
greater (under `compareVersions`) than that of every earlier parseable
option — ties keep the first-seen highest — and not less than that of any
parseable option; on options `v1.30 ↦ A`, `v1.31 ↦ B` it selects `B`. -/
theorem claimC5_release_resolution_highest_version :
    (∀ (fields : List ProjectFieldInfo) (f : ProjectFieldInfo),
      fields.find? (fun g => strContains (strToLower g.name) "k8s release") = some f →
      (findK8sReleaseFieldAndLatestVersion fields).1 = some f.id ∧
      (∀ s : String, (findK8sReleaseFieldAndLatestVersion fields).2 = some s →
        s ≠ "" ∧
        ∃ i, ∃ h : i < f.options.length,
          (f.options.get ⟨i, h⟩).id = s ∧
          extractVersion (f.options.get ⟨i, h⟩).name ≠ "" ∧
          ∀ j, ∀ hj : j < f.options.length,
            extractVersion (f.options.get ⟨j, hj⟩).name ≠ "" →
            (j < i → compareVersions (extractVersion (f.options.get ⟨i, h⟩).name)
                (extractVersion (f.options.get ⟨j, hj⟩).name) = 1) ∧
            compareVersions (extractVersion (f.options.get ⟨i, h⟩).name)
                (extractVersion (f.options.get ⟨j, hj⟩).name) ≠ -1)) ∧
    findK8sReleaseFieldAndLatestVersion exampleK8sFields = (some "F", some "B") := by
  constructor
  · intro fields f hf
    have hunf : findK8sReleaseFieldAndLatestVersion fields =
        (some f.id,
          if (findLatestAux f.options "" "").2 ≠ "" then some (findLatestAux f.options "" "").2
          else none) := by
      simp [findK8sReleaseFieldAndLatestVersion, hf]
    rw [hunf]
    refine ⟨rfl, ?_⟩
    intro s hs
    by_cases hlid : (findLatestAux f.options "" "").2 ≠ ""
    · rw [if_pos hlid] at hs
      have hsl : (findLatestAux f.options "" "").2 = s := Option.some.inj hs
      refine ⟨hsl ▸ hlid, ?_⟩
      rcases findLatestAux_char f.options "" "" with ⟨heq, _⟩ | ⟨i, h, hid, hlv, hvne, _, hall⟩
      · rw [heq] at hlid
        exact absurd rfl hlid
      · refine ⟨i, h, ?_, hvne, ?_⟩
        · rw [← hsl]; exact hid.symm
        · intro j hj hvj
          have hres := hall j hj hvj
          rw [hlv] at hres
          exact hres
    · rw [if_neg hlid] at hs
      exact absurd hs (by simp)
  · decide

/-- Witness for C5: on the example schema the release field is found, its ID
is returned, and the higher-version option `B` is selected. -/
theorem claimC5_witness :
    (exampleK8sFields.find? (fun g => strContains (strToLower g.name) "k8s release") =
      some ⟨"F", "K8s Release", [⟨"v1.30", "A"⟩, ⟨"v1.31", "B"⟩]⟩) ∧
    (findK8sReleaseFieldAndLatestVersion exampleK8sFields).1 = some "F" ∧
    findK8sReleaseFieldAndLatestVersion exampleK8sFields = (some "F", some "B") := by
  refine ⟨by decide, ?_, claimC5_release_resolution_highest_version.2⟩
  exact (claimC5_release_resolution_highest_version.1 exampleK8sFields
    ⟨"F", "K8s Release", [⟨"v1.30", "A"⟩, ⟨"v1.31", "B"⟩]⟩ (by decide)).1

end Signalhound
